import Mathlib

/-
Verification of the jockey filter-expression engine and status-graph
resolution logic.  The Python modules `jockey/filters.py` and
`jockey/core.py` are shallowly embedded: Python strings become `List Char`,
dictionaries become ordered association lists (Python dicts preserve
insertion order and cannot hold duplicate keys, so iteration hands back the
pair that indexing would return), exceptions become an explicit `Except`
error kind, and generators become the lists of their yields (an exception
raised during generation aborts the whole materialisation).
-/

namespace Jockey

/-- Python strings are modelled as lists of characters. -/
abbrev Name := List Char

/-- Convert a Lean string literal to the `Name` encoding. -/
def chars (s : String) : Name := s.toList

/-- The kinds of Python exceptions the embedded code can raise.
`exception` stands for a bare `raise Exception(...)` (e.g. the
no-principal-found failure in `core.py`). -/
inductive Err where
  | keyError
  | typeError
  | valueError
  | assertionError
  | timeoutError
  | exception
deriving DecidableEq, Repr

deriving instance DecidableEq for Except

/-- Python `t.startswith(s)` on the char-list encoding: `tokLead t s` is
true when `t` is an initial segment of `s`. -/
def tokLead : Name → Name → Bool
  | [], _ => true
  | _ :: _, [] => false
  | a :: ts, b :: s => a == b && tokLead ts s

/-- Python substring membership `t in s`. -/
def tokIn (t : Name) : Name → Bool
  | [] => tokLead t []
  | c :: rest => tokLead t (c :: rest) || tokIn t rest

/-- Helper for Python `s.split(sep)`: `skip` counts characters of a
just-matched separator still to be discarded.  Matching proceeds left to
right and non-overlapping, exactly as `str.split`. -/
def splitAux (sep : Name) : Name → Nat → List Name
  | [], _ => [[]]
  | _ :: rest, k + 1 => splitAux sep rest k
  | c :: rest, 0 =>
    if tokLead sep (c :: rest) then
      [] :: splitAux sep rest (sep.length - 1)
    else
      match splitAux sep rest 0 with
      | [] => [[c]]
      | seg :: segs => (c :: seg) :: segs

/-- Python `s.split(sep)` for a non-empty separator `sep`. -/
def splitOnSub (sep s : Name) : List Name := splitAux sep s 0

end Jockey

namespace Jockey.Filters

/-- The operator enumeration of `jockey/filters.py` (`FilterMode`),
in source declaration order. -/
inductive FilterMode where
  | EQUALS
  | NOT_EQUALS
  | REGEX
  | NOT_REGEX
  | GREATER_THAN
  | GREATER_THAN_OR_EQUALS
  | LESS_THAN
  | LESS_THAN_OR_EQUALS
  | CONTAINS
  | NOT_CONTAINS
deriving DecidableEq, Repr

/-- Checks if the value equals the query (`equals_filter`). -/
def equals_filter {α : Type} [DecidableEq α] (value query : α) : Bool :=
  value = query

/-- Checks if the value does not equal the query (`not_equals_filter`). -/
def not_equals_filter {α : Type} [DecidableEq α] (value query : α) : Bool :=
  ¬ value = query

/-- Checks if the query is contained within the value (`contains_filter`);
for the string values the engine passes, Python `in` is the substring
test. -/
def contains_filter (value query : Name) : Bool :=
  tokIn query value

/-- Checks if the query is not contained within the value
(`not_contains_filter`). -/
def not_contains_filter (value query : Name) : Bool :=
  !tokIn query value

/-- The module-wide timeout constant `REGEX_TIMEOUT` handed to the external
`regex` engine on every user-supplied pattern. -/
def REGEX_TIMEOUT : Nat := 100

/-- Checks if the value matches the regular expression query
(`regex_filter`).  The external `regex.search` engine is a parameter
`search pattern value timeout`; it reports whether a match was found or
that the time budget was exceeded.  The source wraps the call in
`try/except TimeoutError` that logs and re-raises. -/
def regex_filter (search : Name → Name → Nat → Except Err Bool)
    (value query : Name) : Except Err Bool :=
  match search query value REGEX_TIMEOUT with
  | .ok found => .ok found
  | .error e => .error e

/-- Checks if the value does not match the regular expression query
(`not_regex_filter`); the source tests `regex.search(...) is None` and
re-raises a timeout. -/
def not_regex_filter (search : Name → Name → Nat → Except Err Bool)
    (value query : Name) : Except Err Bool :=
  match search query value REGEX_TIMEOUT with
  | .ok found => .ok (!found)
  | .error e => .error e

/-- The token sets of all ten filter modes flattened into the exact order
`parse_filter_expression` scans them: modes in enum declaration order, and
inside each mode the tokens sorted by descending length (`sorted(tokens,
key=len, reverse=True)`). -/
def tokenTable : List (FilterMode × Name) :=
  [(.EQUALS, chars "=="), (.EQUALS, chars "="),
   (.NOT_EQUALS, chars "^="), (.NOT_EQUALS, chars "!="),
   (.REGEX, chars "%"),
   (.NOT_REGEX, chars "^%"), (.NOT_REGEX, chars "!%"),
   (.GREATER_THAN, chars ">"),
   (.GREATER_THAN_OR_EQUALS, chars ">="), (.GREATER_THAN_OR_EQUALS, chars "=>"),
   (.LESS_THAN, chars "<"),
   (.LESS_THAN_OR_EQUALS, chars "<="), (.LESS_THAN_OR_EQUALS, chars "=<"),
   (.CONTAINS, chars "~"),
   (.NOT_CONTAINS, chars "!~"), (.NOT_CONTAINS, chars "^~")]

/-- First token of the scan order appearing as a substring of the
expression, with its owning mode. -/
def findToken : List (FilterMode × Name) → Name → Option (FilterMode × Name)
  | [], _ => none
  | (m, t) :: rest, expr =>
    if tokIn t expr then some (m, t) else findToken rest expr

/-- The data of a compiled filter closure: the mode whose token matched and
the field/query parts of the split expression. -/
structure ParsedExpr where
  mode : FilterMode
  field : Name
  query : Name
deriving DecidableEq, Repr

/-- The parser `parse_filter_expression`: scans `tokenTable` for the first
token occurring in the expression, splits the expression on that token
(`field, query = expression.split(token)`, a ValueError unless the split
has exactly two parts), and otherwise raises
`ValueError("Invalid filter expression ...")`. -/
def parse_filter_expression (expression : Name) : Except Err ParsedExpr :=
  match findToken tokenTable expression with
  | none => .error .valueError
  | some (m, t) =>
    match splitOnSub t expression with
    | [field, query] => .ok ⟨m, field, query⟩
    | _ => .error .valueError

end Jockey.Filters

namespace Jockey.Core

/-- The legacy operator enumeration of `jockey/core.py` (`FilterMode`),
with token values `=`, `~`, `^=`, `^~`. -/
inductive FilterMode where
  | EQUALS
  | CONTAINS
  | NOT_EQUALS
  | NOT_CONTAINS
deriving DecidableEq, Repr

/-- The token (`value`) of each legacy filter mode. -/
def FilterMode.value : FilterMode → Name
  | .EQUALS => chars "="
  | .CONTAINS => chars "~"
  | .NOT_EQUALS => chars "^="
  | .NOT_CONTAINS => chars "^~"

/-- The tuple `POSITIVE_MODES`. -/
def POSITIVE_MODES : List FilterMode := [.EQUALS, .CONTAINS]

/-- The tuple `NEGATIVE_MODES`. -/
def NEGATIVE_MODES : List FilterMode := [.NOT_EQUALS, .NOT_CONTAINS]

/-- The entity-kind enumeration `ObjectType` of `jockey/core.py`. -/
inductive ObjectType where
  | CHARM
  | APP
  | UNIT
  | MACHINE
  | IP
  | HOSTNAME
  | AVAILABILITY_ZONE
deriving DecidableEq, Repr

/-- The alias tuple (`value`) of each `ObjectType` member. -/
def ObjectType.aliases : ObjectType → List Name
  | .CHARM => [chars "charms", chars "charm", chars "c"]
  | .APP => [chars "applications", chars "app", chars "apps",
             chars "application", chars "a"]
  | .UNIT => [chars "units", chars "unit", chars "u"]
  | .MACHINE => [chars "machines", chars "machine", chars "m"]
  | .IP => [chars "ips", chars "address", chars "addresses", chars "ip",
            chars "i"]
  | .HOSTNAME => [chars "hostnames", chars "hostname", chars "host",
                  chars "hosts", chars "h"]
  | .AVAILABILITY_ZONE => [chars "availability-zone",
                           chars "availability_zone", chars "az",
                           chars "zone"]

/-- The members of `ObjectType` in declaration order, as iterated by
`for obj_type in ObjectType`. -/
def objectTypes : List ObjectType :=
  [.CHARM, .APP, .UNIT, .MACHINE, .IP, .HOSTNAME, .AVAILABILITY_ZONE]

/-- A parsed legacy filter (`JockeyFilter`). -/
structure JockeyFilter where
  obj_type : ObjectType
  mode : FilterMode
  content : Name
deriving DecidableEq, Repr

/-- A unit entry of a status document.  `machine` and `subordinates` model
the `"machine"` key and the key list of the `"subordinates"` mapping, each
`none` when the key is absent. -/
structure UnitRec where
  machine : Option Name
  subordinates : Option (List Name)
deriving DecidableEq, Repr

/-- An application entry of a status document: the `"charm"` string, the
`"subordinate-to"` application-name list (its presence marks the
application subordinate) and the ordered `"units"` mapping, each `none`
when the key is absent. -/
structure AppRec where
  charm : Option Name
  subordinate_to : Option (List Name)
  units : Option (List (Name × UnitRec))
deriving DecidableEq, Repr

/-- A container entry nested under a machine's `"containers"` mapping; only
its `"hostname"` and `"ip-addresses"` fields are ever read. -/
structure ContainerRec where
  hostname : Option Name
  ip_addresses : Option (List Name)
deriving DecidableEq, Repr

/-- A top-level machine entry of a status document. -/
structure MachineRec where
  hostname : Option Name
  ip_addresses : Option (List Name)
  hardware : Option Name
  containers : Option (List (Name × ContainerRec))
deriving DecidableEq, Repr

/-- A status document (`JujuStatus`): the ordered `"applications"` and
`"machines"` mappings. -/
structure JujuStatus where
  applications : List (Name × AppRec)
  machines : List (Name × MachineRec)
deriving DecidableEq, Repr

/-- The comparison of `check_filter_match`: `FILTER_ACTION_MAP` applied as
`action(filter.content, value)`; Python `in` on strings is the substring
test. -/
def check_filter_match (f : JockeyFilter) (value : Name) : Bool :=
  match f.mode with
  | .EQUALS => f.content == value
  | .NOT_EQUALS => f.content != value
  | .CONTAINS => tokIn f.content value
  | .NOT_CONTAINS => !tokIn f.content value

/-- The generator `positive_filters`. -/
def positive_filters (filters : List JockeyFilter) : List JockeyFilter :=
  filters.filter (fun f => POSITIVE_MODES.contains f.mode)

/-- The generator `negative_filters`. -/
def negative_filters (filters : List JockeyFilter) : List JockeyFilter :=
  filters.filter (fun f => NEGATIVE_MODES.contains f.mode)

/-- A batch item: the batches built by `filter_machines` may contain
`None` entries (e.g. charms of unknown applications), on which `==`/`!=`
compare unequal while `in` raises a TypeError. -/
def check_filter_match_opt (f : JockeyFilter) (v : Option Name) :
    Except Err Bool :=
  match v with
  | some s => .ok (check_filter_match f s)
  | none =>
    match f.mode with
    | .EQUALS => .ok false
    | .NOT_EQUALS => .ok true
    | _ => .error .typeError

/-- Python `all(check_filter_match(filt, item) for item in batch)`:
short-circuits on the first failing item, so a later `None` item is only
reached (and can only raise) if every earlier item passed. -/
def batchAll (f : JockeyFilter) : List (Option Name) → Except Err Bool
  | [] => .ok true
  | v :: rest => do
    let b ← check_filter_match_opt f v
    if b then batchAll f rest else .ok false

/-- Python `any(check_filter_match(filt, item) for item in batch)` with the
same short-circuit behaviour. -/
def batchAny (f : JockeyFilter) : List (Option Name) → Except Err Bool
  | [] => .ok false
  | v :: rest => do
    let b ← check_filter_match_opt f v
    if b then .ok true else batchAny f rest

/-- The first loop of `check_filter_batch_match`: returns false as soon as
a negative filter fails on some batch item. -/
def negPhase (batch : List (Option Name)) :
    List JockeyFilter → Except Err Bool
  | [] => .ok true
  | f :: fs => do
    let ok ← batchAll f batch
    if ok then negPhase batch fs else .ok false

/-- The second loop of `check_filter_batch_match`: returns false as soon as
a positive filter matches no batch item. -/
def posPhase (batch : List (Option Name)) :
    List JockeyFilter → Except Err Bool
  | [] => .ok true
  | f :: fs => do
    let found ← batchAny f batch
    if found then posPhase batch fs else .ok false

/-- The batch-match rule `check_filter_batch_match`: all negative filters
must hold on every item, then every positive filter must hold on at least
one item. -/
def check_filter_batch_match (filter_list : List JockeyFilter)
    (batch : List (Option Name)) : Except Err Bool := do
  let ok ← negPhase batch (negative_filters filter_list)
  if ok then posPhase batch (positive_filters filter_list) else .ok false

end Jockey.Core

namespace Jockey.Core

/-- Lowercasing of `abbrev.lower()` / `machine.lower()`. -/
def lowerName (s : Name) : Name := s.map Char.toLower

/-- The character class of the legacy filter-code regex `[=^~]+`. -/
def isOpChar (c : Char) : Bool := c == '=' || c == '^' || c == '~'

/-- The maximal runs of `[=^~]` characters of a string, in order: the
result of `filter_code_pattern.findall(filter_str)`. -/
def opRuns : Name → List Name
  | [] => []
  | c :: rest =>
    let rs := opRuns rest
    if isOpChar c then
      match rest, rs with
      | d :: _, r :: rs' => if isOpChar d then (c :: r) :: rs' else [c] :: rs
      | _, _ => [c] :: rs
    else rs

/-- The characters before the first filter-code run
(`filter_str[: match.start()]`). -/
def beforeRun (s : Name) : Name := s.takeWhile (fun c => !isOpChar c)

/-- The first filter-code run itself (`match.group()`). -/
def firstRun (s : Name) : Name :=
  (s.dropWhile (fun c => !isOpChar c)).takeWhile isOpChar

/-- The characters after the first filter-code run
(`filter_str[match.end() :]`). -/
def afterRun (s : Name) : Name :=
  (s.dropWhile (fun c => !isOpChar c)).dropWhile isOpChar

/-- The abbreviation resolver `convert_object_abbreviation`: lowercases the
abbreviation and returns the first `ObjectType` whose alias tuple contains
it. -/
def convert_object_abbreviation (ab : Name) : Option ObjectType :=
  objectTypes.find? (fun ot => ot.aliases.contains (lowerName ab))

/-- The blacklist `("_", ":", ";", "\\", "\t", "\n", ",")` of
`parse_filter_string`. -/
def charBlacklist : List Char := ['_', ':', ';', '\\', '\t', '\n', ',']

/-- The legacy parser `parse_filter_string`: asserts exactly one filter
code, a resolvable entity-kind before it, a known filter mode, and
non-empty content free of blacklisted characters. -/
def parse_filter_string (filter_str : Name) : Except Err JockeyFilter :=
  if (opRuns filter_str).length ≠ 1 then .error .assertionError
  else
    match convert_object_abbreviation (beforeRun filter_str) with
    | none => .error .assertionError
    | some object_type =>
      match [FilterMode.EQUALS, .CONTAINS, .NOT_EQUALS,
             .NOT_CONTAINS].find? (fun m => m.value == firstRun filter_str) with
      | none => .error .assertionError
      | some filter_mode =>
        let content := afterRun filter_str
        if content = [] then .error .assertionError
        else if content.any (fun c => charBlacklist.contains c) then
          .error .assertionError
        else .ok ⟨object_type, filter_mode, content⟩

/-- The principal test on an application record: `is_app_principal` is
`"subordinate-to" not in status["applications"][app_name]`. -/
def isPrincipalRec (a : AppRec) : Bool := a.subordinate_to.isNone

/-- The lookup form of `is_app_principal`; indexing an absent application
raises a KeyError. -/
def is_app_principal (st : JujuStatus) (app : Name) : Except Err Bool :=
  match st.applications.lookup app with
  | none => .error .keyError
  | some a => .ok (isPrincipalRec a)

/-- The enumerator `get_applications` (application names in document
order). -/
def get_applications (st : JujuStatus) : List Name :=
  st.applications.map Prod.fst

/-- The enumerator `get_units`: for each principal application that has a
`"units"` mapping, each principal unit followed by its subordinate unit
names. -/
def get_units (st : JujuStatus) : List Name :=
  st.applications.flatMap fun a =>
    if !isPrincipalRec a.2 then []
    else
      match a.2.units with
      | none => []
      | some us =>
        us.flatMap fun u =>
          u.1 :: (match u.2.subordinates with
                  | none => []
                  | some subs => subs)

/-- The enumerator `get_machines`: each top-level machine id followed by
its container ids. -/
def get_machines (st : JujuStatus) : List Name :=
  st.machines.flatMap fun m =>
    m.1 :: (match m.2.containers with
            | none => []
            | some cs => cs.map Prod.fst)

/-- The resolver `application_to_charm`: the application's `"charm"` field,
with KeyErrors caught and turned into `None`. -/
def application_to_charm (st : JujuStatus) (app_name : Name) : Option Name :=
  match st.applications.lookup app_name with
  | none => none
  | some a => a.charm

/-- The resolver `unit_to_application`: the part of the unit name before
the first `/`, provided it names an application of the document. -/
def unit_to_application (st : JujuStatus) (unit_name : Name) : Option Name :=
  let app_name := (splitOnSub (chars "/") unit_name).headD []
  if (st.applications.lookup app_name).isSome then some app_name else none

/-- The inner loop of `subordinate_unit_to_principal_unit` over the units
of one principal application: indexing a unit without a `"subordinates"`
key raises a KeyError, otherwise the first unit whose subordinates contain
the name wins. -/
def searchUnits (unit_name : Name) :
    List (Name × UnitRec) → Except Err (Option Name)
  | [] => .ok none
  | (p_unit, ur) :: rest =>
    match ur.subordinates with
    | none => .error .keyError
    | some subs =>
      if subs.contains unit_name then .ok (some p_unit)
      else searchUnits unit_name rest

/-- The outer loop of `subordinate_unit_to_principal_unit` over the
`"subordinate-to"` application names: an absent application raises a
KeyError (inside `is_app_principal`), subordinate applications are
skipped, and an application without a `"units"` key raises a KeyError. -/
def searchPrincipals (st : JujuStatus) (unit_name : Name) :
    List Name → Except Err Name
  | [] => .error .exception
  | p_app :: rest =>
    match st.applications.lookup p_app with
    | none => .error .keyError
    | some prec =>
      if !isPrincipalRec prec then searchPrincipals st unit_name rest
      else
        match prec.units with
        | none => .error .keyError
        | some punits => do
          match ← searchUnits unit_name punits with
          | some p_unit => .ok p_unit
          | none => searchPrincipals st unit_name rest

/-- The resolver `subordinate_unit_to_principal_unit`: a principal unit is
returned unchanged; otherwise the `"subordinate-to"` applications are
searched and a bare `Exception` is raised when no principal unit owns the
subordinate. -/
def subordinate_unit_to_principal_unit (st : JujuStatus) (unit_name : Name) :
    Except Err Name :=
  match unit_to_application st unit_name with
  | none => .error .assertionError
  | some app =>
    match st.applications.lookup app with
    | none => .error .keyError
    | some arec =>
      match arec.subordinate_to with
      | none => .ok unit_name
      | some papps => searchPrincipals st unit_name papps

/-- The resolver `unit_to_machine`: resolves the principal unit and reads
its `"machine"` field through fresh dictionary lookups (each absence is a
KeyError). -/
def unit_to_machine (st : JujuStatus) (unit_name : Name) : Except Err Name := do
  let principal ← subordinate_unit_to_principal_unit st unit_name
  match unit_to_application st principal with
  | none => .error .keyError
  | some app =>
    match st.applications.lookup app with
    | none => .error .keyError
    | some arec =>
      match arec.units with
      | none => .error .keyError
      | some us =>
        match us.lookup principal with
        | none => .error .keyError
        | some ur =>
          match ur.machine with
          | none => .error .keyError
          | some m => .ok m

/-- The container marker test of `machine_to_ips` and
`machine_to_availability_zone` is `"lxd" in machine.lower()` resp.
`"lxd" in machine`; `machine_to_hostname` also uses the exact form. -/
def lxd : Name := chars "lxd"

/-- The resolver `machine_to_ips`: on a container id, the `"ip-addresses"`
of the container entry nested under the parent (the id part before the
first `/`); otherwise those of the top-level machine. -/
def machine_to_ips (st : JujuStatus) (machine : Name) :
    Except Err (List Name) :=
  if tokIn lxd (lowerName machine) then
    match st.machines.lookup ((splitOnSub (chars "/") machine).headD []) with
    | none => .error .keyError
    | some base =>
      match base.containers with
      | none => .error .keyError
      | some cs =>
        match cs.lookup machine with
        | none => .error .keyError
        | some cr =>
          match cr.ip_addresses with
          | none => .error .keyError
          | some ips => .ok ips
  else
    match st.machines.lookup machine with
    | none => .error .keyError
    | some mr =>
      match mr.ip_addresses with
      | none => .error .keyError
      | some ips => .ok ips

/-- The resolver `machine_to_hostname`: on an id containing `lxd`, the
three-way unpacking `physical_machine, _, container_id = machine.split("/")`
(a ValueError unless the split has exactly three parts) followed by the
container entry's `"hostname"`; otherwise the top-level machine's. -/
def machine_to_hostname (st : JujuStatus) (machine : Name) : Except Err Name :=
  if tokIn lxd machine then
    match splitOnSub (chars "/") machine with
    | [physical, _, _] =>
      match st.machines.lookup physical with
      | none => .error .keyError
      | some mr =>
        match mr.containers with
        | none => .error .keyError
        | some cs =>
          match cs.lookup machine with
          | none => .error .keyError
          | some cr =>
            match cr.hostname with
            | none => .error .keyError
            | some h => .ok h
    | _ => .error .valueError
  else
    match st.machines.lookup machine with
    | none => .error .keyError
    | some mr =>
      match mr.hostname with
      | none => .error .keyError
      | some h => .ok h

end Jockey.Core

namespace Jockey.Core

/-- Whitespace class of Python `str.split()` with no argument. -/
def isPySpace (c : Char) : Bool :=
  c == ' ' || c == '\t' || c == '\n' || c == '\r'

/-- Python `s.split()`: maximal whitespace-free words, empties dropped. -/
def splitWs : Name → List Name
  | [] => []
  | c :: rest =>
    let rs := splitWs rest
    if isPySpace c then rs
    else
      match rest, rs with
      | d :: _, w :: ws => if isPySpace d then [c] :: rs else (c :: w) :: ws
      | _, _ => [c] :: rs

/-- The scan of `machine_to_availability_zone` over the entries of the
`"hardware"` string: `key, value = entry.split("=")` (a ValueError unless
exactly two parts) until `key == "availability-zone"`. -/
def azScan : List Name → Except Err (Option Name)
  | [] => .ok none
  | entry :: rest =>
    match splitOnSub (chars "=") entry with
    | [key, value] =>
      if key = chars "availability-zone" then .ok (some value)
      else azScan rest
    | _ => .error .valueError

/-- The resolver `machine_to_availability_zone`: containers are first
resolved to their parent id (a three-way split, ValueError on any other
shape), then the parent's `"hardware"` string is scanned. -/
def machine_to_availability_zone (st : JujuStatus) (machine : Name) :
    Except Err (Option Name) := do
  let m ←
    if tokIn lxd machine then
      match splitOnSub (chars "/") machine with
      | [physical, _, _] => Except.ok physical
      | _ => Except.error Err.valueError
    else Except.ok machine
  match st.machines.lookup m with
  | none => .error .keyError
  | some mr =>
    match mr.hardware with
    | none => .error .keyError
    | some hw => azScan (splitWs hw)

/-- The loop body of `machine_to_units` applied to the units enumerated by
`get_units`: subordinate units are skipped, and a principal unit on the
requested machine is yielded together with its subordinate names. -/
def machineUnitsAux (st : JujuStatus) (machine : Name) :
    List Name → Except Err (List Name)
  | [] => .ok []
  | unit :: rest =>
    match unit_to_application st unit with
    | none => .error .assertionError
    | some app =>
      match st.applications.lookup app with
      | none => .error .keyError
      | some arec =>
        if !isPrincipalRec arec then machineUnitsAux st machine rest
        else do
          let m ← unit_to_machine st unit
          if m == machine then
            match arec.units with
            | none => .error .keyError
            | some us =>
              match us.lookup unit with
              | none => .error .keyError
              | some ur => do
                let subs := match ur.subordinates with
                  | none => []
                  | some s => s
                let tail ← machineUnitsAux st machine rest
                .ok (unit :: subs ++ tail)
          else machineUnitsAux st machine rest

/-- The resolver `machine_to_units`. -/
def machine_to_units (st : JujuStatus) (machine : Name) :
    Except Err (List Name) :=
  machineUnitsAux st machine (get_units st)

/-- The IP check of `filter_units`:
`all(any(check_filter_match(i, ip) for ip in ips) for i in ip_filters)`
where `ips` is a single generator shared by every conjunct, so each `any`
consumes items (up to and including its first match) that later conjuncts
never see. -/
def ipConsume (f : JockeyFilter) : List Name → Option (List Name)
  | [] => none
  | ip :: rest =>
    if check_filter_match f ip then some rest else ipConsume f rest

/-- Folds `ipConsume` over the IP filters, threading the remainder of the
shared generator. -/
def ipFiltersCheck : List JockeyFilter → List Name → Bool
  | [], _ => true
  | f :: fs, ips =>
    match ipConsume f ips with
    | some rest => ipFiltersCheck fs rest
    | none => false

/-- Python `all(check_filter_match(f, az) for f in az_filters)` where `az`
may be `None`: short-circuits, and `in None` raises a TypeError. -/
def azAll (az : Option Name) : List JockeyFilter → Except Err Bool
  | [] => .ok true
  | f :: fs => do
    let b ← check_filter_match_opt f az
    if b then azAll az fs else .ok false

end Jockey.Core

namespace Jockey.Core

/-- The per-candidate body of the `filter_units` loop.  The source
partitions the filter list by target kind once before the loop; the
partitions are pure, so recomputing them per unit is extensionally the
same.  `continue` becomes `.ok false`, `yield` becomes `.ok true`, and a
failed `assert` or uncaught exception aborts the query. -/
def unitMatches (st : JujuStatus) (filters : List JockeyFilter)
    (unit : Name) : Except Err Bool :=
  let charm_filters := filters.filter (fun f => f.obj_type == ObjectType.CHARM)
  let app_filters := filters.filter (fun f => f.obj_type == ObjectType.APP)
  let unit_filters := filters.filter (fun f => f.obj_type == ObjectType.UNIT)
  let machine_filters :=
    filters.filter (fun f => f.obj_type == ObjectType.MACHINE)
  let ip_filters := filters.filter (fun f => f.obj_type == ObjectType.IP)
  let hostname_filters :=
    filters.filter (fun f => f.obj_type == ObjectType.HOSTNAME)
  let az_filters :=
    filters.filter (fun f => f.obj_type == ObjectType.AVAILABILITY_ZONE)
  if !(unit_filters.all (fun f => check_filter_match f unit)) then .ok false
  else
    (if app_filters.isEmpty && charm_filters.isEmpty then Except.ok true
     else
       match unit_to_application st unit with
       | none => .error .assertionError
       | some app =>
         if app = [] then .error .assertionError
         else if !(app_filters.all (fun f => check_filter_match f app)) then
           .ok false
         else
           match application_to_charm st app with
           | none => .error .assertionError
           | some charm =>
             if charm = [] then .error .assertionError
             else .ok (charm_filters.all (fun f => check_filter_match f charm))
    ) >>= fun appCharmPass =>
    if !appCharmPass then .ok false
    else if machine_filters.isEmpty && ip_filters.isEmpty &&
        hostname_filters.isEmpty then
      -- the source yields here without consulting az_filters
      .ok true
    else do
      let machine ← unit_to_machine st unit
      if machine = [] then .error .assertionError
      else if !(machine_filters.all (fun f => check_filter_match f machine))
      then .ok false
      else do
        let hostname ← machine_to_hostname st machine
        if hostname = [] then .error .assertionError
        else if !(hostname_filters.all
            (fun f => check_filter_match f hostname)) then .ok false
        else do
          let ipOk ←
            if ip_filters.isEmpty then Except.ok true
            else do
              let ips ← machine_to_ips st machine
              Except.ok (ipFiltersCheck ip_filters ips)
          if !ipOk then .ok false
          else do
            let az ← machine_to_availability_zone st machine
            azAll az az_filters

/-- The per-candidate body of the `filter_machines` loop, with the same
conventions as `unitMatches`. -/
def machineMatches (st : JujuStatus) (filters : List JockeyFilter)
    (machine : Name) : Except Err Bool :=
  let machine_filters :=
    filters.filter (fun f => f.obj_type == ObjectType.MACHINE)
  let hostname_filters :=
    filters.filter (fun f => f.obj_type == ObjectType.HOSTNAME)
  let ip_filters := filters.filter (fun f => f.obj_type == ObjectType.IP)
  let az_filters :=
    filters.filter (fun f => f.obj_type == ObjectType.AVAILABILITY_ZONE)
  let unit_filters := filters.filter (fun f => f.obj_type == ObjectType.UNIT)
  let app_filters := filters.filter (fun f => f.obj_type == ObjectType.APP)
  let charm_filters := filters.filter (fun f => f.obj_type == ObjectType.CHARM)
  if !(machine_filters.all (fun f => check_filter_match f machine)) then
    .ok false
  else do
    let hostname ← machine_to_hostname st machine
    if hostname = [] then .error .assertionError
    else if !(hostname_filters.all (fun f => check_filter_match f hostname))
    then .ok false
    else do
      let ips ← machine_to_ips st machine
      let ipOk ← check_filter_batch_match ip_filters (ips.map some)
      if !ipOk then .ok false
      else do
        let units ← machine_to_units st machine
        let unitOk ← check_filter_batch_match unit_filters (units.map some)
        if !unitOk then .ok false
        else
          let apps := units.map (unit_to_application st)
          if apps.any (fun a => a == none || a == some []) then
            .error .assertionError
          else do
            let appOk ← check_filter_batch_match app_filters apps
            if !appOk then .ok false
            else
              let charms := apps.map (fun a => a.bind (application_to_charm st))
              do
                let charmOk ← check_filter_batch_match charm_filters charms
                if !charmOk then .ok false
                else do
                  let az ← machine_to_availability_zone st machine
                  azAll az az_filters

/-- Materialisation of a filtering generator: keeps the candidates the
predicate accepts, aborting the whole run on the first raised exception. -/
def filterListM (p : Name → Except Err Bool) :
    List Name → Except Err (List Name)
  | [] => .ok []
  | x :: xs => do
    let b ← p x
    let rest ← filterListM p xs
    .ok (if b then x :: rest else rest)

/-- The query function `filter_units`. -/
def filter_units (st : JujuStatus) (filters : List JockeyFilter) :
    Except Err (List Name) :=
  filterListM (unitMatches st filters) (get_units st)

/-- The query function `filter_machines`. -/
def filter_machines (st : JujuStatus) (filters : List JockeyFilter) :
    Except Err (List Name) :=
  filterListM (machineMatches st filters) (get_machines st)

end Jockey.Core

namespace Jockey.Filters

/-- A nested candidate-entity record as handed to a compiled filter
closure: a mapping with string, boolean or nested-mapping values. -/
inductive JVal where
  | s (v : Name)
  | b (v : Bool)
  | obj (fields : List (Name × JVal))

/-- The dotted-path resolution `dotty(item)[field]` of the external
`dotty_dict` collaborator: each path segment indexes the next nested
mapping; `none` when the path fails to resolve. -/
def dottyGet (item : JVal) : List Name → Option JVal
  | [] => some item
  | k :: rest =>
    match item with
    | .obj fields =>
      match fields.lookup k with
      | some v => dottyGet v rest
      | none => none
    | _ => none

/-- The closure factory `wrap_filter_action`: the returned closure resolves
the dotted field on the item, returning `False` on a KeyError
(`fast-failing filter`), and otherwise applies the mode's comparison.
The query-coercion step (`uses_typevar_params`/`type_parser_for`) and the
comparator itself act only on a successfully resolved value and are folded
into the `action` parameter, exactly as the source closes over
`mode.value.action`. -/
def wrap_filter_action (action : JVal → Name → Except Err Bool)
    (field query : Name) (item : JVal) : Except Err Bool :=
  match dottyGet item (splitOnSub (chars ".") field) with
  | none => .ok false
  | some value => action value query

end Jockey.Filters

namespace Jockey

theorem tokLead_self_append (t r : Name) : tokLead t (t ++ r) = true := by
  induction t with
  | nil => rfl
  | cons a ts ih => simp [tokLead, ih]

theorem tokLead_head_mem {d : Char} {ts s : Name}
    (h : tokLead (d :: ts) s = true) : d ∈ s := by
  cases s with
  | nil => simp [tokLead] at h
  | cons b rest =>
    simp only [tokLead, Bool.and_eq_true, beq_iff_eq] at h
    simp [h.1]

theorem tokIn_head_notMem {d : Char} {ts s : Name} (h : d ∉ s) :
    tokIn (d :: ts) s = false := by
  induction s with
  | nil => rfl
  | cons c rest ih =>
    have hdc : d ≠ c := fun he => h (he ▸ List.mem_cons_self c rest)
    have hdr : d ∉ rest := fun hm => h (List.mem_cons_of_mem c hm)
    simp [tokIn, tokLead, hdc, ih hdr]

theorem tokIn_single_of_mem {d : Char} {s : Name} (h : d ∈ s) :
    tokIn [d] s = true := by
  induction s with
  | nil => simp at h
  | cons c rest ih =>
    rcases List.mem_cons.mp h with he | hm
    · simp [tokIn, tokLead, he]
    · simp [tokIn, ih hm]

theorem not_mem_of_tokIn_single {d : Char} {s : Name}
    (h : tokIn [d] s = false) : d ∉ s :=
  fun hm => by simp [tokIn_single_of_mem hm] at h

theorem tokIn_sandwich (t f c : Name) : tokIn t (f ++ (t ++ c)) = true := by
  induction f with
  | nil =>
    cases t with
    | nil => cases c <;> simp [tokIn, tokLead]
    | cons a ts =>
      have h := tokLead_self_append (a :: ts) c
      rw [List.cons_append] at h
      simp [tokIn, h]
  | cons a f' ih => simp [tokIn, ih]

theorem tokIn_double_once {d : Char} {f c : Name} (hf : d ∉ f) (hc : d ∉ c) :
    tokIn [d, d] (f ++ d :: c) = false := by
  induction f with
  | nil =>
    have h1 : tokLead [d] c = false := by
      cases c with
      | nil => rfl
      | cons e rest =>
        have he : d ≠ e := fun he => hc (he ▸ List.mem_cons_self e rest)
        simp [tokLead, he]
    simp [tokIn, tokLead, h1, tokIn_head_notMem hc]
  | cons a f' ih =>
    have hda : d ≠ a := fun he => hf (he ▸ List.mem_cons_self a f')
    have hf' : d ∉ f' := fun hm => hf (List.mem_cons_of_mem a hm)
    simp [tokIn, tokLead, hda, ih hf']

theorem tokLead_map (g : Char → Char) {t s : Name}
    (h : tokLead t s = true) : tokLead (t.map g) (s.map g) = true := by
  induction t generalizing s with
  | nil => rfl
  | cons a ts ih =>
    cases s with
    | nil => simp [tokLead] at h
    | cons b rest =>
      simp only [tokLead, Bool.and_eq_true, beq_iff_eq] at h
      simp [List.map, tokLead, h.1, ih h.2]

theorem tokIn_map (g : Char → Char) {t s : Name}
    (h : tokIn t s = true) : tokIn (t.map g) (s.map g) = true := by
  induction s with
  | nil =>
    cases t with
    | nil => rfl
    | cons a ts => simp [tokIn, tokLead] at h
  | cons c rest ih =>
    simp only [tokIn, Bool.or_eq_true] at h
    rcases h with h | h
    · have hm := tokLead_map g h
      simp only [List.map_cons] at hm
      simp [tokIn, hm]
    · simp [List.map, tokIn, ih h]

theorem splitAux_skip (sep : Name) (xs r : Name) :
    splitAux sep (xs ++ r) xs.length = splitAux sep r 0 := by
  induction xs with
  | nil => rfl
  | cons x xs' ih => simpa [splitAux] using ih

theorem splitAux_no_sep {d : Char} (ds : Name) {s : Name} (h : d ∉ s) :
    splitAux (d :: ds) s 0 = [s] := by
  induction s with
  | nil => rfl
  | cons c rest ih =>
    have hdc : d ≠ c := fun he => h (he ▸ List.mem_cons_self c rest)
    have hdr : d ∉ rest := fun hm => h (List.mem_cons_of_mem c hm)
    simp [splitAux, tokLead, hdc, ih hdr]

theorem splitAux_sandwich {d : Char} (ds : Name) {f : Name} (c : Name)
    (hf : d ∉ f) :
    splitAux (d :: ds) (f ++ d :: (ds ++ c)) 0 =
      f :: splitAux (d :: ds) c 0 := by
  induction f with
  | nil =>
    have hlead := tokLead_self_append (d :: ds) c
    rw [List.cons_append] at hlead
    have hskip := splitAux_skip (d :: ds) ds c
    simp only [List.nil_append, splitAux, hlead, if_true, List.append_eq]
    simp only [List.length_cons, Nat.add_sub_cancel, hskip]
  | cons a f' ih =>
    have hda : d ≠ a := fun he => hf (he ▸ List.mem_cons_self a f')
    have hf' : d ∉ f' := fun hm => hf (List.mem_cons_of_mem a hm)
    simp [splitAux, tokLead, hda, ih hf']

theorem splitOnSub_exact {d : Char} (ds : Name) {f c : Name}
    (hf : d ∉ f) (hc : d ∉ c) :
    splitOnSub (d :: ds) (f ++ d :: (ds ++ c)) = [f, c] := by
  unfold splitOnSub
  rw [splitAux_sandwich ds c hf, splitAux_no_sep ds hc]

end Jockey

namespace Jockey.Filters

/-- C9: `equals_filter(x, x)` is true and `not_equals_filter(x, x)` is
false for every value, EQUALS and NOT_EQUALS return opposite results on
every input pair, and `contains_filter`/`not_contains_filter` are
complementary on every pair supporting membership. -/
theorem c9_comparator_complementarity :
    (∀ x : Name, equals_filter x x = true) ∧
    (∀ x : Name, not_equals_filter x x = false) ∧
    (∀ v q : Name, not_equals_filter v q = !equals_filter v q) ∧
    (∀ v q : Name, contains_filter v q ≠ not_contains_filter v q) := by
  refine ⟨fun x => ?_, fun x => ?_, fun v q => ?_, fun v q => ?_⟩
  · simp [equals_filter]
  · simp [not_equals_filter]
  · simp [equals_filter, not_equals_filter]
  · simp only [contains_filter, not_contains_filter]
    cases tokIn q v <;> simp

/-- C5: a compiled filter closure on whose candidate the dotted field path
fails to resolve returns false instead of raising, for every comparator
action, field, query and item. -/
theorem c5_missing_field_fails_closed
    (action : JVal → Name → Except Err Bool) (field query : Name)
    (item : JVal)
    (h : dottyGet item (splitOnSub (chars ".") field) = none) :
    wrap_filter_action action field query item = .ok false := by
  unfold wrap_filter_action
  rw [h]

/-- Concrete instance for `c5_missing_field_fails_closed`: the path `a.b`
does not resolve on the record `{"a": "x"}` and the closure returns
false. -/
theorem c5_witness :
    wrap_filter_action (fun _ _ => .ok true) (chars "a.b") (chars "q")
      (.obj [(chars "a", .s (chars "x"))]) = .ok false :=
  c5_missing_field_fails_closed (fun _ _ => .ok true) (chars "a.b")
    (chars "q") (.obj [(chars "a", .s (chars "x"))]) rfl

/-- C6: both regex comparators hand the external engine the fixed timeout
constant `REGEX_TIMEOUT = 100` on every evaluation, and an engine timeout
propagates to the caller as an error instead of being treated as false. -/
theorem c6_regex_timeout_propagates :
    REGEX_TIMEOUT = 100 ∧
    (∀ (search : Name → Name → Nat → Except Err Bool) value query,
      regex_filter search value query = search query value 100) ∧
    (∀ (search : Name → Name → Nat → Except Err Bool) value query e,
      search query value REGEX_TIMEOUT = .error e →
        regex_filter search value query = .error e ∧
        not_regex_filter search value query = .error e) := by
  refine ⟨rfl, fun search value query => ?_, fun search value query e h => ?_⟩
  · cases hs : search query value 100 <;>
      simp [regex_filter, REGEX_TIMEOUT, hs]
  · constructor <;> simp [regex_filter, not_regex_filter, h]

/-- Concrete instance for `c6_regex_timeout_propagates`: an engine that
times out makes both comparators propagate the timeout error. -/
theorem c6_witness :
    regex_filter (fun _ _ _ => .error .timeoutError) (chars "v")
        (chars "p") = .error .timeoutError ∧
    not_regex_filter (fun _ _ _ => .error .timeoutError) (chars "v")
        (chars "p") = .error .timeoutError :=
  c6_regex_timeout_propagates.2.2 (fun _ _ _ => .error .timeoutError)
    (chars "v") (chars "p") .timeoutError rfl

end Jockey.Filters

namespace Jockey.Core

theorem ok_bind {α β : Type} (x : α) (g : α → Except Err β) :
    (Except.ok x >>= g) = g x := rfl

theorem err_bind {α β : Type} (e : Err) (g : α → Except Err β) :
    ((Except.error e : Except Err α) >>= g) = .error e := rfl

theorem batchAll_map_some (f : JockeyFilter) (batch : List Name) :
    batchAll f (batch.map some) = .ok (batch.all (check_filter_match f)) := by
  induction batch with
  | nil => rfl
  | cons b rest ih =>
    simp only [List.map_cons, batchAll, check_filter_match_opt, List.all_cons,
      ok_bind]
    cases check_filter_match f b <;> simp [ih, ok_bind]

theorem batchAny_map_some (f : JockeyFilter) (batch : List Name) :
    batchAny f (batch.map some) = .ok (batch.any (check_filter_match f)) := by
  induction batch with
  | nil => rfl
  | cons b rest ih =>
    simp only [List.map_cons, batchAny, check_filter_match_opt, List.any_cons,
      ok_bind]
    cases check_filter_match f b <;> simp [ih, ok_bind]

theorem negPhase_map_some (batch : List Name) (fs : List JockeyFilter) :
    negPhase (batch.map some) fs =
      .ok (fs.all fun f => batch.all (check_filter_match f)) := by
  induction fs with
  | nil => rfl
  | cons f fs ih =>
    simp only [negPhase, batchAll_map_some, List.all_cons, ok_bind]
    cases batch.all (check_filter_match f) <;> simp [ih, ok_bind]

theorem posPhase_map_some (batch : List Name) (fs : List JockeyFilter) :
    posPhase (batch.map some) fs =
      .ok (fs.all fun f => batch.any (check_filter_match f)) := by
  induction fs with
  | nil => rfl
  | cons f fs ih =>
    simp only [posPhase, batchAny_map_some, List.all_cons, ok_bind]
    cases batch.any (check_filter_match f) <;> simp [ih, ok_bind]

theorem check_filter_batch_match_map_some (fs : List JockeyFilter)
    (batch : List Name) :
    check_filter_batch_match fs (batch.map some) =
      .ok (((negative_filters fs).all fun f =>
              batch.all (check_filter_match f)) &&
           ((positive_filters fs).all fun f =>
              batch.any (check_filter_match f))) := by
  simp only [check_filter_batch_match, negPhase_map_some, ok_bind]
  cases (negative_filters fs).all fun f => batch.all (check_filter_match f)
  · simp [ok_bind]
  · simp [posPhase_map_some, ok_bind]

end Jockey.Core

namespace Jockey.Core

/-- C3: a batch passes `check_filter_batch_match` exactly when every
negative-mode filter holds on every item and every positive-mode filter
holds on at least one item; in particular the empty batch passes exactly
when no positive-mode filter is present. -/
theorem c3_batch_match_rule (filter_list : List JockeyFilter)
    (batch : List Name) :
    (check_filter_batch_match filter_list (batch.map some) = .ok true ↔
      (∀ f ∈ filter_list, f.mode ∈ NEGATIVE_MODES →
        ∀ item ∈ batch, check_filter_match f item = true) ∧
      (∀ f ∈ filter_list, f.mode ∈ POSITIVE_MODES →
        ∃ item ∈ batch, check_filter_match f item = true)) ∧
    (check_filter_batch_match filter_list [] = .ok true ↔
      ∀ f ∈ filter_list, f.mode ∉ POSITIVE_MODES) := by
  constructor
  · rw [check_filter_batch_match_map_some]
    simp only [Except.ok.injEq, Bool.and_eq_true, List.all_eq_true,
      List.any_eq_true, negative_filters, positive_filters, List.mem_filter,
      and_imp, List.elem_iff]
  · have h0 : ([] : List (Option Name)) = (([] : List Name).map some) := rfl
    rw [h0, check_filter_batch_match_map_some]
    simp only [Except.ok.injEq, Bool.and_eq_true, List.all_eq_true,
      negative_filters, positive_filters, List.mem_filter, and_imp,
      List.elem_iff, List.all_nil, List.any_nil, implies_true, true_and]
    constructor
    · intro h f hf hm
      have := h f hf hm
      simp at this
    · intro h f hf hm
      exact absurd hm (h f hf)

end Jockey.Core

namespace Jockey.Core

/-- C8: a successful `parse_filter_string` guarantees the raw string held
exactly one operator-code run, an entity-kind abbreviation resolvable
(case-insensitively) before it, and non-empty content free of blacklisted
characters after it; every violation is a hard parse failure. -/
theorem c8_legacy_parse_validation (filter_str : Name) (f : JockeyFilter)
    (h : parse_filter_string filter_str = .ok f) :
    (opRuns filter_str).length = 1 ∧
    (convert_object_abbreviation (beforeRun filter_str)).isSome = true ∧
    afterRun filter_str ≠ [] ∧
    ∀ c ∈ afterRun filter_str, c ∉ charBlacklist := by
  unfold parse_filter_string at h
  split at h
  · simp at h
  next hlen =>
    split at h
    · simp at h
    next ot hot =>
      split at h
      · simp at h
      next m hm =>
        simp only at h
        split at h
        · simp at h
        next hne =>
          split at h
          · simp at h
          next hbl =>
            refine ⟨by omega, by simp [hot], hne, fun c hc => ?_⟩
            intro hmem
            exact hbl (List.any_eq_true.mpr
              ⟨c, hc, List.elem_iff.mpr hmem⟩)

/-- Concrete instance for `c8_legacy_parse_validation`: the filter string
`u=x` parses successfully and satisfies all four validation conditions. -/
theorem c8_witness :
    (opRuns (chars "u=x")).length = 1 ∧
    (convert_object_abbreviation (beforeRun (chars "u=x"))).isSome = true ∧
    afterRun (chars "u=x") ≠ [] ∧
    ∀ c ∈ afterRun (chars "u=x"), c ∉ charBlacklist :=
  c8_legacy_parse_validation (chars "u=x")
    ⟨ObjectType.UNIT, FilterMode.EQUALS, chars "x"⟩ rfl

end Jockey.Core

namespace Jockey.Core

/-- A status document with one principal application `app` whose single
unit `app/0` sits on machine `0` in availability zone `z1`. -/
def azSkipStatus : JujuStatus :=
  { applications :=
      [(chars "app",
        { charm := some (chars "ch"),
          subordinate_to := none,
          units := some [(chars "app/0",
            { machine := some (chars "0"), subordinates := none })] })],
    machines :=
      [(chars "0",
        { hostname := some (chars "h"),
          ip_addresses := some [chars "10.0.0.1"],
          hardware := some (chars "arch=amd64 availability-zone=z1"),
          containers := none })] }

/-- An availability-zone equality filter for zone `z2`, which machine `0`
of `azSkipStatus` does not satisfy. -/
def azMismatchFilter : JockeyFilter :=
  ⟨.AVAILABILITY_ZONE, .EQUALS, chars "z2"⟩

theorem filterListM_ok_sublist {p : Name → Except Err Bool} :
    ∀ {l r : List Name}, filterListM p l = .ok r → r.Sublist l := by
  intro l
  induction l with
  | nil =>
    intro r h
    simp only [filterListM, Except.ok.injEq] at h
    exact h ▸ List.Sublist.refl []
  | cons x xs ih =>
    intro r h
    simp only [filterListM] at h
    cases hb : p x with
    | error e => rw [hb, err_bind] at h; simp at h
    | ok b =>
      rw [hb, ok_bind] at h
      cases hr : filterListM p xs with
      | error e => rw [hr, err_bind] at h; simp at h
      | ok rest =>
        rw [hr, ok_bind] at h
        simp only [Except.ok.injEq] at h
        cases b with
        | true => exact h ▸ List.Sublist.cons₂ x (ih hr)
        | false => exact h ▸ List.Sublist.cons x (ih hr)

theorem filterListM_all_true {p : Name → Except Err Bool}
    (hp : ∀ x, p x = .ok true) : ∀ l, filterListM p l = .ok l := by
  intro l
  induction l with
  | nil => rfl
  | cons x xs ih => simp [filterListM, hp x, ih, ok_bind]

theorem unitMatches_nil (st : JujuStatus) (u : Name) :
    unitMatches st [] u = .ok true := rfl

/-- C10: every successful `filter_units` (resp. `filter_machines`) run
yields an order-preserving subsequence of the `get_units`
(resp. `get_machines`) enumeration, and an empty filter list yields the
full `get_units` sequence. -/
theorem c10_order_preserving_subsequence :
    (∀ (st : JujuStatus) (filters : List JockeyFilter) (r : List Name),
      filter_units st filters = .ok r → r.Sublist (get_units st)) ∧
    (∀ (st : JujuStatus) (filters : List JockeyFilter) (r : List Name),
      filter_machines st filters = .ok r → r.Sublist (get_machines st)) ∧
    (∀ st : JujuStatus, filter_units st [] = .ok (get_units st)) := by
  refine ⟨fun st filters r h => filterListM_ok_sublist h,
    fun st filters r h => filterListM_ok_sublist h,
    fun st => filterListM_all_true (unitMatches_nil st) (get_units st)⟩

/-- Concrete instance for `c10_order_preserving_subsequence`: on
`azSkipStatus`, the empty query returns exactly the enumeration, which is
a subsequence of itself. -/
theorem c10_witness :
    filter_units azSkipStatus [] = .ok (get_units azSkipStatus) ∧
    (get_units azSkipStatus).Sublist (get_units azSkipStatus) :=
  ⟨c10_order_preserving_subsequence.2.2 azSkipStatus,
   c10_order_preserving_subsequence.1 azSkipStatus [] (get_units azSkipStatus)
     (c10_order_preserving_subsequence.2.2 azSkipStatus)⟩

/-- C2 fails on the code: with only an availability-zone filter,
`filter_units` yields `app/0` even though the unit's zone `z1` does not
satisfy the filter — the early yield at core.py line 803 consults only the
machine/IP/hostname partitions, skipping the availability-zone partition.
`filter_machines` on the same input correctly rejects machine `0`. -/
theorem c2_az_partition_skipped :
    filter_units azSkipStatus [azMismatchFilter] = .ok [chars "app/0"] ∧
    unit_to_machine azSkipStatus (chars "app/0") = .ok (chars "0") ∧
    machine_to_availability_zone azSkipStatus (chars "0") =
      .ok (some (chars "z1")) ∧
    check_filter_match azMismatchFilter (chars "z1") = false ∧
    filter_machines azSkipStatus [azMismatchFilter] = .ok [] :=
  ⟨rfl, rfl, rfl, rfl, rfl⟩

end Jockey.Core

namespace Jockey.Core

/-- A status document whose only machine is a top-level machine named
`lxd0` (not a container: its id contains no `/lxd/`). -/
def lxdNamedStatus : JujuStatus :=
  { applications := [],
    machines :=
      [(chars "lxd0",
        { hostname := some (chars "h"),
          ip_addresses := some [chars "10.0.0.5"],
          hardware := none,
          containers := none })] }

/-- C2 as stated fails on the code: the container test of
`machine_to_hostname`/`machine_to_ips` is the bare substring `lxd`, so the
top-level machine id `lxd0` — which does not contain the `/lxd/` marker and
whose entry carries hostname `h` and one IP — is sent down the container
path, where the three-way split (resp. the `containers` lookup) raises
instead of returning the top-level fields the claim promises. -/
theorem c7_counterexample :
    tokIn (chars "/lxd/") (chars "lxd0") = false ∧
    lxdNamedStatus.machines.lookup (chars "lxd0") =
      some ⟨some (chars "h"), some [chars "10.0.0.5"], none, none⟩ ∧
    machine_to_hostname lxdNamedStatus (chars "lxd0") =
      .error .valueError ∧
    machine_to_ips lxdNamedStatus (chars "lxd0") = .error .keyError :=
  ⟨rfl, rfl, rfl, rfl⟩

theorem tokIn_of_lower_false {m : Name}
    (h : tokIn lxd (lowerName m) = false) : tokIn lxd m = false := by
  cases ht : tokIn lxd m
  · rfl
  · have hmap := tokIn_map Char.toLower ht
    rw [show lxd.map Char.toLower = lxd from rfl] at hmap
    rw [lowerName] at h
    rw [hmap] at h
    exact h

/-- C7 amended: the container test is the substring `lxd` (checked on a
lowercased copy by `machine_to_ips`, exactly by `machine_to_hostname`),
not `/lxd/`.  A genuine container id `p/lxd/n` resolves to the fields of
the container entry nested under parent `p`; an id whose lowercasing does
not contain `lxd` reads the top-level machine entry directly. -/
theorem c7_amended_container_marker :
    (∀ (st : JujuStatus) (p n : Name) (mr : MachineRec)
        (cs : List (Name × ContainerRec)) (cr : ContainerRec)
        (h : Name) (ips : List Name),
      '/' ∉ p → '/' ∉ n →
      st.machines.lookup p = some mr →
      mr.containers = some cs →
      cs.lookup (p ++ chars "/lxd/" ++ n) = some cr →
      cr.hostname = some h →
      cr.ip_addresses = some ips →
      machine_to_hostname st (p ++ chars "/lxd/" ++ n) = .ok h ∧
      machine_to_ips st (p ++ chars "/lxd/" ++ n) = .ok ips) ∧
    (∀ (st : JujuStatus) (m : Name) (mr : MachineRec)
        (h : Name) (ips : List Name),
      tokIn lxd (lowerName m) = false →
      st.machines.lookup m = some mr →
      mr.hostname = some h →
      mr.ip_addresses = some ips →
      machine_to_hostname st m = .ok h ∧
      machine_to_ips st m = .ok ips) := by
  constructor
  · intro st p n mr cs cr h ips hp hn hlook hcont hcr hh hips
    have hch : chars "/lxd/" = '/' :: (chars "lxd" ++ '/' :: ([] ++ [])) := rfl
    have hshape : p ++ chars "/lxd/" ++ n =
        p ++ '/' :: ([] ++ (chars "lxd" ++ '/' :: ([] ++ n))) := by
      rw [hch]; simp
    have h1 := splitAux_sandwich (d := '/') []
      (chars "lxd" ++ '/' :: ([] ++ n)) hp
    have h2 := splitAux_sandwich (d := '/') (f := chars "lxd") [] n
      (by decide)
    have h3 := splitAux_no_sep (d := '/') [] hn
    have hsplit : splitOnSub (chars "/") (p ++ chars "/lxd/" ++ n) =
        [p, chars "lxd", n] := by
      rw [show chars "/" = ['/'] from rfl, splitOnSub, hshape, h1, h2, h3]
    have hin : tokIn lxd (p ++ chars "/lxd/" ++ n) = true := by
      have hs := tokIn_sandwich lxd (p ++ [('/' : Char)]) ('/' :: n)
      rw [hch]
      rw [show p ++ '/' :: (chars "lxd" ++ '/' :: ([] ++ [])) ++ n =
        p ++ ['/'] ++ (lxd ++ '/' :: n) from by simp [lxd, chars]]
      exact hs
    have hinLower :
        tokIn lxd (lowerName (p ++ chars "/lxd/" ++ n)) = true := by
      have hmap := tokIn_map Char.toLower hin
      rw [show lxd.map Char.toLower = lxd from rfl] at hmap
      exact hmap
    have hcr2 : List.lookup (p ++ (chars "/lxd/" ++ n)) cs = some cr := by
      rw [← List.append_assoc]; exact hcr
    constructor
    · rw [machine_to_hostname, if_pos hin, hsplit]
      simp [hlook, hcont, hcr2, hh]
    · rw [machine_to_ips, if_pos hinLower, hsplit]
      simp [hlook, hcont, hcr2, hips]
  · intro st m mr h ips hlow hlook hh hips
    have hm := tokIn_of_lower_false hlow
    constructor
    · rw [machine_to_hostname, if_neg (by simp [hm])]
      simp [hlook, hh]
    · rw [machine_to_ips, if_neg (by simp [hlow])]
      simp [hlook, hips]

end Jockey.Core

namespace Jockey.Core

/-- A status document with machine `0` owning container `0/lxd/0` and a
second plain machine `1`. -/
def containerDoc : JujuStatus :=
  { applications := [],
    machines :=
      [(chars "0",
        { hostname := some (chars "parent-host"),
          ip_addresses := some [chars "10.0.0.1"],
          hardware := none,
          containers := some [(chars "0/lxd/0",
            { hostname := some (chars "juju-abc-0-lxd-0"),
              ip_addresses := some [chars "10.0.0.2"] })] }),
       (chars "1",
        { hostname := some (chars "host-b"),
          ip_addresses := some [chars "10.0.0.3"],
          hardware := none,
          containers := none })] }

/-- Concrete instance for `c7_amended_container_marker`: the container id
`0/lxd/0` resolves to the container's own hostname and IPs, and the plain
id `1` to the top-level fields. -/
theorem c7_witness :
    (machine_to_hostname containerDoc (chars "0" ++ chars "/lxd/" ++ chars "0")
        = .ok (chars "juju-abc-0-lxd-0") ∧
     machine_to_ips containerDoc (chars "0" ++ chars "/lxd/" ++ chars "0")
        = .ok [chars "10.0.0.2"]) ∧
    (machine_to_hostname containerDoc (chars "1") = .ok (chars "host-b") ∧
     machine_to_ips containerDoc (chars "1") = .ok [chars "10.0.0.3"]) :=
  ⟨c7_amended_container_marker.1 containerDoc (chars "0") (chars "0") _ _ _ _ _
     (by decide) (by decide) rfl rfl rfl rfl rfl,
   c7_amended_container_marker.2 containerDoc (chars "1") _ _ _
     (by decide) rfl rfl rfl⟩

end Jockey.Core

namespace Jockey

theorem tokLead_subset {t s : Name} (h : tokLead t s = true) :
    ∀ d ∈ t, d ∈ s := by
  induction t generalizing s with
  | nil => simp
  | cons a ts ih =>
    cases s with
    | nil => simp [tokLead] at h
    | cons b rest =>
      simp only [tokLead, Bool.and_eq_true, beq_iff_eq] at h
      intro d hd
      rcases List.mem_cons.mp hd with he | hm
      · exact he ▸ h.1 ▸ List.mem_cons_self b rest
      · exact List.mem_cons_of_mem b (ih h.2 d hm)

theorem tokIn_subset {t s : Name} (h : tokIn t s = true) :
    ∀ d ∈ t, d ∈ s := by
  induction s with
  | nil =>
    cases t with
    | nil => simp
    | cons a ts => simp [tokIn, tokLead] at h
  | cons b rest ih =>
    simp only [tokIn, Bool.or_eq_true] at h
    rcases h with h | h
    · exact tokLead_subset h
    · exact fun d hd => List.mem_cons_of_mem b (ih h d hd)

theorem tokIn_false_of_notMem {d : Char} {t s : Name} (hd : d ∈ t)
    (hs : d ∉ s) : tokIn t s = false := by
  cases h : tokIn t s
  · rfl
  · exact absurd (tokIn_subset h d hd) hs

theorem notMem_mid {d e : Char} {f c : Name} (h1 : d ∉ f) (h2 : d ≠ e)
    (h3 : d ∉ c) : d ∉ f ++ e :: c := by
  simp only [List.mem_append, List.mem_cons]
  rintro (h | h | h)
  · exact h1 h
  · exact h2 h
  · exact h3 h

theorem notMem_mid2 {d e e' : Char} {f c : Name} (h1 : d ∉ f) (h2 : d ≠ e)
    (h2' : d ≠ e') (h3 : d ∉ c) : d ∉ f ++ e :: e' :: c := by
  simp only [List.mem_append, List.mem_cons]
  rintro (h | h | h | h)
  · exact h1 h
  · exact h2 h
  · exact h2' h
  · exact h3 h

end Jockey

namespace Jockey.Filters

theorem no_op_chars {s : Name}
    (h : ∀ pr ∈ tokenTable, tokIn pr.2 s = false) :
    '=' ∉ s ∧ '%' ∉ s ∧ '>' ∉ s ∧ '<' ∉ s ∧ '~' ∉ s :=
  ⟨not_mem_of_tokIn_single (h (.EQUALS, chars "=") (by decide)),
   not_mem_of_tokIn_single (h (.REGEX, chars "%") (by decide)),
   not_mem_of_tokIn_single (h (.GREATER_THAN, chars ">") (by decide)),
   not_mem_of_tokIn_single (h (.LESS_THAN, chars "<") (by decide)),
   not_mem_of_tokIn_single (h (.CONTAINS, chars "~") (by decide))⟩

end Jockey.Filters

namespace Jockey.Filters

/-- C1 amended: `parse_filter_expression` scans modes in declaration order
(EQUALS, NOT_EQUALS, REGEX, NOT_REGEX, GREATER_THAN,
GREATER_THAN_OR_EQUALS, LESS_THAN, LESS_THAN_OR_EQUALS, CONTAINS,
NOT_CONTAINS) and sorts tokens by descending length only inside a single
mode, so only the tokens an earlier-scanned token cannot preempt — `==`,
`=`, `%`, `>`, `<`, `~` — round-trip: for those, parsing
`field ++ token ++ content` with field and content containing no operator
token yields exactly the owning mode and the pre-split field and
content. -/
theorem c1_amended_token_scan (f c : Name)
    (hf : ∀ pr ∈ tokenTable, tokIn pr.2 f = false)
    (hc : ∀ pr ∈ tokenTable, tokIn pr.2 c = false) :
    parse_filter_expression (f ++ chars "==" ++ c) =
      .ok ⟨.EQUALS, f, c⟩ ∧
    parse_filter_expression (f ++ chars "=" ++ c) =
      .ok ⟨.EQUALS, f, c⟩ ∧
    parse_filter_expression (f ++ chars "%" ++ c) =
      .ok ⟨.REGEX, f, c⟩ ∧
    parse_filter_expression (f ++ chars ">" ++ c) =
      .ok ⟨.GREATER_THAN, f, c⟩ ∧
    parse_filter_expression (f ++ chars "<" ++ c) =
      .ok ⟨.LESS_THAN, f, c⟩ ∧
    parse_filter_expression (f ++ chars "~" ++ c) =
      .ok ⟨.CONTAINS, f, c⟩ := by
  obtain ⟨hfe, hfp, hfg, hfl, hft⟩ := no_op_chars hf
  obtain ⟨hce, hcp, hcg, hcl, hct⟩ := no_op_chars hc
  refine ⟨?_, ?_, ?_, ?_, ?_, ?_⟩
  · -- token "=="
    rw [List.append_assoc]
    show parse_filter_expression (f ++ '=' :: '=' :: c) = .ok ⟨.EQUALS, f, c⟩
    have h1 : tokIn (chars "==") (f ++ '=' :: '=' :: c) = true :=
      tokIn_sandwich (chars "==") f c
    have hsp : splitOnSub (chars "==") (f ++ '=' :: '=' :: c) = [f, c] :=
      splitOnSub_exact (d := '=') ['='] hfe hce
    simp [parse_filter_expression, tokenTable, findToken, h1, hsp]
  · -- token "="
    rw [List.append_assoc]
    show parse_filter_expression (f ++ '=' :: c) = .ok ⟨.EQUALS, f, c⟩
    have h1 : tokIn (chars "==") (f ++ '=' :: c) = false :=
      tokIn_double_once hfe hce
    have h2 : tokIn (chars "=") (f ++ '=' :: c) = true :=
      tokIn_sandwich (chars "=") f c
    have hsp : splitOnSub (chars "=") (f ++ '=' :: c) = [f, c] :=
      splitOnSub_exact (d := '=') [] hfe hce
    simp [parse_filter_expression, tokenTable, findToken, h1, h2, hsp]
  · -- token "%"
    rw [List.append_assoc]
    show parse_filter_expression (f ++ '%' :: c) = .ok ⟨.REGEX, f, c⟩
    have he : '=' ∉ f ++ '%' :: c := notMem_mid hfe (by decide) hce
    have h1 : tokIn (chars "==") (f ++ '%' :: c) = false :=
      tokIn_false_of_notMem (by decide) he
    have h2 : tokIn (chars "=") (f ++ '%' :: c) = false :=
      tokIn_false_of_notMem (by decide) he
    have h3 : tokIn (chars "^=") (f ++ '%' :: c) = false :=
      tokIn_false_of_notMem (by decide) he
    have h4 : tokIn (chars "!=") (f ++ '%' :: c) = false :=
      tokIn_false_of_notMem (by decide) he
    have h5 : tokIn (chars "%") (f ++ '%' :: c) = true :=
      tokIn_sandwich (chars "%") f c
    have hsp : splitOnSub (chars "%") (f ++ '%' :: c) = [f, c] :=
      splitOnSub_exact (d := '%') [] hfp hcp
    simp [parse_filter_expression, tokenTable, findToken, h1, h2, h3, h4, h5,
      hsp]
  · -- token ">"
    rw [List.append_assoc]
    show parse_filter_expression (f ++ '>' :: c) = .ok ⟨.GREATER_THAN, f, c⟩
    have he : '=' ∉ f ++ '>' :: c := notMem_mid hfe (by decide) hce
    have hp : '%' ∉ f ++ '>' :: c := notMem_mid hfp (by decide) hcp
    have h1 : tokIn (chars "==") (f ++ '>' :: c) = false :=
      tokIn_false_of_notMem (by decide) he
    have h2 : tokIn (chars "=") (f ++ '>' :: c) = false :=
      tokIn_false_of_notMem (by decide) he
    have h3 : tokIn (chars "^=") (f ++ '>' :: c) = false :=
      tokIn_false_of_notMem (by decide) he
    have h4 : tokIn (chars "!=") (f ++ '>' :: c) = false :=
      tokIn_false_of_notMem (by decide) he
    have h5 : tokIn (chars "%") (f ++ '>' :: c) = false :=
      tokIn_false_of_notMem (by decide) hp
    have h6 : tokIn (chars "^%") (f ++ '>' :: c) = false :=
      tokIn_false_of_notMem (by decide) hp
    have h7 : tokIn (chars "!%") (f ++ '>' :: c) = false :=
      tokIn_false_of_notMem (by decide) hp
    have h8 : tokIn (chars ">") (f ++ '>' :: c) = true :=
      tokIn_sandwich (chars ">") f c
    have hsp : splitOnSub (chars ">") (f ++ '>' :: c) = [f, c] :=
      splitOnSub_exact (d := '>') [] hfg hcg
    simp [parse_filter_expression, tokenTable, findToken, h1, h2, h3, h4, h5,
      h6, h7, h8, hsp]
  · -- token "<"
    rw [List.append_assoc]
    show parse_filter_expression (f ++ '<' :: c) = .ok ⟨.LESS_THAN, f, c⟩
    have he : '=' ∉ f ++ '<' :: c := notMem_mid hfe (by decide) hce
    have hp : '%' ∉ f ++ '<' :: c := notMem_mid hfp (by decide) hcp
    have hg : '>' ∉ f ++ '<' :: c := notMem_mid hfg (by decide) hcg
    have h1 : tokIn (chars "==") (f ++ '<' :: c) = false :=
      tokIn_false_of_notMem (by decide) he
    have h2 : tokIn (chars "=") (f ++ '<' :: c) = false :=
      tokIn_false_of_notMem (by decide) he
    have h3 : tokIn (chars "^=") (f ++ '<' :: c) = false :=
      tokIn_false_of_notMem (by decide) he
    have h4 : tokIn (chars "!=") (f ++ '<' :: c) = false :=
      tokIn_false_of_notMem (by decide) he
    have h5 : tokIn (chars "%") (f ++ '<' :: c) = false :=
      tokIn_false_of_notMem (by decide) hp
    have h6 : tokIn (chars "^%") (f ++ '<' :: c) = false :=
      tokIn_false_of_notMem (by decide) hp
    have h7 : tokIn (chars "!%") (f ++ '<' :: c) = false :=
      tokIn_false_of_notMem (by decide) hp
    have h8 : tokIn (chars ">") (f ++ '<' :: c) = false :=
      tokIn_false_of_notMem (by decide) hg
    have h9 : tokIn (chars ">=") (f ++ '<' :: c) = false :=
      tokIn_false_of_notMem (by decide) hg
    have h10 : tokIn (chars "=>") (f ++ '<' :: c) = false :=
      tokIn_false_of_notMem (by decide) he
    have h11 : tokIn (chars "<") (f ++ '<' :: c) = true :=
      tokIn_sandwich (chars "<") f c
    have hsp : splitOnSub (chars "<") (f ++ '<' :: c) = [f, c] :=
      splitOnSub_exact (d := '<') [] hfl hcl
    simp [parse_filter_expression, tokenTable, findToken, h1, h2, h3, h4, h5,
      h6, h7, h8, h9, h10, h11, hsp]
  · -- token "~"
    rw [List.append_assoc]
    show parse_filter_expression (f ++ '~' :: c) = .ok ⟨.CONTAINS, f, c⟩
    have he : '=' ∉ f ++ '~' :: c := notMem_mid hfe (by decide) hce
    have hp : '%' ∉ f ++ '~' :: c := notMem_mid hfp (by decide) hcp
    have hg : '>' ∉ f ++ '~' :: c := notMem_mid hfg (by decide) hcg
    have hl : '<' ∉ f ++ '~' :: c := notMem_mid hfl (by decide) hcl
    have h1 : tokIn (chars "==") (f ++ '~' :: c) = false :=
      tokIn_false_of_notMem (by decide) he
    have h2 : tokIn (chars "=") (f ++ '~' :: c) = false :=
      tokIn_false_of_notMem (by decide) he
    have h3 : tokIn (chars "^=") (f ++ '~' :: c) = false :=
      tokIn_false_of_notMem (by decide) he
    have h4 : tokIn (chars "!=") (f ++ '~' :: c) = false :=
      tokIn_false_of_notMem (by decide) he
    have h5 : tokIn (chars "%") (f ++ '~' :: c) = false :=
      tokIn_false_of_notMem (by decide) hp
    have h6 : tokIn (chars "^%") (f ++ '~' :: c) = false :=
      tokIn_false_of_notMem (by decide) hp
    have h7 : tokIn (chars "!%") (f ++ '~' :: c) = false :=
      tokIn_false_of_notMem (by decide) hp
    have h8 : tokIn (chars ">") (f ++ '~' :: c) = false :=
      tokIn_false_of_notMem (by decide) hg
    have h9 : tokIn (chars ">=") (f ++ '~' :: c) = false :=
      tokIn_false_of_notMem (by decide) hg
    have h10 : tokIn (chars "=>") (f ++ '~' :: c) = false :=
      tokIn_false_of_notMem (by decide) he
    have h11 : tokIn (chars "<") (f ++ '~' :: c) = false :=
      tokIn_false_of_notMem (by decide) hl
    have h12 : tokIn (chars "<=") (f ++ '~' :: c) = false :=
      tokIn_false_of_notMem (by decide) hl
    have h13 : tokIn (chars "=<") (f ++ '~' :: c) = false :=
      tokIn_false_of_notMem (by decide) he
    have h14 : tokIn (chars "~") (f ++ '~' :: c) = true :=
      tokIn_sandwich (chars "~") f c
    have hsp : splitOnSub (chars "~") (f ++ '~' :: c) = [f, c] :=
      splitOnSub_exact (d := '~') [] hft hct
    simp [parse_filter_expression, tokenTable, findToken, h1, h2, h3, h4, h5,
      h6, h7, h8, h9, h10, h11, h12, h13, h14, hsp]

end Jockey.Filters

namespace Jockey.Filters

/-- C1 fails on the code: `a>=b` is `field ++ token ++ content` for the
valid operator token `>=` with field `a` and content `b` free of operator
tokens, yet the parser returns EQUALS with field `a>` — the EQUALS token
`=` is scanned before any GREATER_THAN_OR_EQUALS token because modes are
scanned in declaration order, so `>=` is never recognized. -/
theorem c1_counterexample :
    parse_filter_expression (chars "a>=b") =
      .ok ⟨.EQUALS, chars "a>", chars "b"⟩ ∧
    parse_filter_expression (chars "a>=b") ≠
      .ok ⟨.GREATER_THAN_OR_EQUALS, chars "a", chars "b"⟩ :=
  ⟨rfl, by decide⟩

/-- Concrete instance for `c1_amended_token_scan` at field `a` and
content `b`. -/
theorem c1_witness :
    parse_filter_expression (chars "a" ++ chars "==" ++ chars "b") =
      .ok ⟨.EQUALS, chars "a", chars "b"⟩ ∧
    parse_filter_expression (chars "a" ++ chars "=" ++ chars "b") =
      .ok ⟨.EQUALS, chars "a", chars "b"⟩ ∧
    parse_filter_expression (chars "a" ++ chars "%" ++ chars "b") =
      .ok ⟨.REGEX, chars "a", chars "b"⟩ ∧
    parse_filter_expression (chars "a" ++ chars ">" ++ chars "b") =
      .ok ⟨.GREATER_THAN, chars "a", chars "b"⟩ ∧
    parse_filter_expression (chars "a" ++ chars "<" ++ chars "b") =
      .ok ⟨.LESS_THAN, chars "a", chars "b"⟩ ∧
    parse_filter_expression (chars "a" ++ chars "~" ++ chars "b") =
      .ok ⟨.CONTAINS, chars "a", chars "b"⟩ :=
  c1_amended_token_scan (chars "a") (chars "b") (by decide) (by decide)

end Jockey.Filters

namespace Jockey.Core

/-- Modelled from the spec: the first principal unit, in document order,
whose `subordinates` map contains the unit name (a unit without a
`subordinates` entry owns nothing). -/
def findOwnerUnit (u : Name) : List (Name × UnitRec) → Option Name
  | [] => none
  | (p_unit, ur) :: rest =>
    if (ur.subordinates.getD []).contains u then some p_unit
    else findOwnerUnit u rest

/-- Modelled from the spec: searching the applications listed under
`subordinate-to` in order, skipping the non-principal (or absent) ones,
the first principal unit owning the subordinate. -/
def specPrincipalOwner (st : JujuStatus) (u : Name) : List Name → Option Name
  | [] => none
  | p :: rest =>
    match st.applications.lookup p with
    | none => specPrincipalOwner st u rest
    | some prec =>
      if !isPrincipalRec prec then specPrincipalOwner st u rest
      else
        match findOwnerUnit u (prec.units.getD []) with
        | some pu => some pu
        | none => specPrincipalOwner st u rest

/-- Well-formedness of the search space of
`subordinate_unit_to_principal_unit`: every application listed under
`subordinate-to` exists, and every principal one has a `units` map whose
units all carry a `subordinates` entry. -/
def searchWF (st : JujuStatus) (papps : List Name) : Bool :=
  papps.all fun p =>
    match st.applications.lookup p with
    | none => false
    | some prec =>
      !isPrincipalRec prec ||
      (match prec.units with
       | none => false
       | some us => us.all fun q => q.2.subordinates.isSome)

theorem searchUnits_eq_findOwner {u : Name} :
    ∀ {us : List (Name × UnitRec)},
      (us.all fun q => q.2.subordinates.isSome) = true →
      searchUnits u us = .ok (findOwnerUnit u us) := by
  intro us
  induction us with
  | nil => intro _; rfl
  | cons q rest ih =>
    intro h
    simp only [List.all_cons, Bool.and_eq_true] at h
    obtain ⟨subs, hsubs⟩ := Option.isSome_iff_exists.mp h.1
    obtain ⟨pu, ur⟩ := q
    simp only at hsubs
    simp only [searchUnits, findOwnerUnit, hsubs, Option.getD_some]
    cases hct : subs.contains u
    · simp [hct, ih h.2]
    · simp [hct]

theorem searchUnits_ok_some {u pu : Name} :
    ∀ {us : List (Name × UnitRec)},
      searchUnits u us = .ok (some pu) → findOwnerUnit u us = some pu := by
  intro us
  induction us with
  | nil => intro h; simp [searchUnits] at h
  | cons q rest ih =>
    intro h
    obtain ⟨qn, ur⟩ := q
    cases hs : ur.subordinates with
    | none => simp [searchUnits, hs] at h
    | some subs =>
      simp only [searchUnits, hs] at h
      cases hct : subs.contains u
      · simp only [hct, Bool.false_eq_true, if_false] at h
        simp only [findOwnerUnit, hs, Option.getD_some, hct,
          Bool.false_eq_true, if_false]
        exact ih h
      · simp only [hct, if_true, Except.ok.injEq, Option.some.injEq] at h
        simp only [findOwnerUnit, hs, Option.getD_some, hct, if_true, h]

theorem searchPrincipals_eq_spec {u : Name} {st : JujuStatus} :
    ∀ {papps : List Name}, searchWF st papps = true →
      searchPrincipals st u papps =
        (match specPrincipalOwner st u papps with
         | some p => .ok p
         | none => .error .exception) := by
  intro papps
  induction papps with
  | nil => intro _; rfl
  | cons p rest ih =>
    intro h
    simp only [searchWF, List.all_cons, Bool.and_eq_true] at h
    obtain ⟨hp, hrest'⟩ := h
    have hrest : searchWF st rest = true := hrest'
    cases hl : st.applications.lookup p with
    | none => simp [hl] at hp
    | some prec =>
      simp only [hl] at hp
      simp only [searchPrincipals, specPrincipalOwner, hl]
      cases hpr : isPrincipalRec prec
      · simp [hpr, ih hrest]
      · cases hu : prec.units with
        | none => simp [hpr, hu] at hp
        | some us =>
          simp only [hpr, hu, Bool.not_true, Bool.false_or] at hp
          simp only [hpr, hu, Bool.not_true, Bool.false_eq_true, if_false,
            searchUnits_eq_findOwner hp, ok_bind, Option.getD_some]
          cases hfo : findOwnerUnit u us
          · simp [hfo, ih hrest]
          · simp [hfo]

theorem searchPrincipals_none_errors {u : Name} {st : JujuStatus} :
    ∀ {papps : List Name}, specPrincipalOwner st u papps = none →
      ∃ e, searchPrincipals st u papps = .error e := by
  intro papps
  induction papps with
  | nil => intro _; exact ⟨.exception, rfl⟩
  | cons p rest ih =>
    intro h
    simp only [specPrincipalOwner] at h
    cases hl : st.applications.lookup p with
    | none => exact ⟨.keyError, by simp [searchPrincipals, hl]⟩
    | some prec =>
      simp only [hl] at h
      simp only [searchPrincipals, hl]
      cases hpr : isPrincipalRec prec
      · simp only [hpr, Bool.not_false, if_true] at h
        obtain ⟨e, he⟩ := ih h
        exact ⟨e, by simp [hpr, he]⟩
      · simp only [hpr, Bool.not_true, Bool.false_eq_true, if_false] at h
        cases hu : prec.units with
        | none => exact ⟨.keyError, by simp [hpr, hu]⟩
        | some us =>
          simp only [hu, Option.getD_some] at h
          cases hfo : findOwnerUnit u us with
          | some pu => simp [hfo] at h
          | none =>
            simp only [hfo] at h
            cases hsu : searchUnits u us with
            | error e => exact ⟨e, by simp [hpr, hu, hsu, err_bind]⟩
            | ok r =>
              cases r with
              | some pu =>
                rw [searchUnits_ok_some hsu] at hfo
                simp at hfo
              | none =>
                obtain ⟨e, he⟩ := ih h
                exact ⟨e, by simp [hpr, hu, hsu, ok_bind, he]⟩

end Jockey.Core

namespace Jockey.Core

/-- C4 amended: for a unit whose application exists, a principal
application means the unit is returned unchanged; a subordinate
application whose search space is well-formed (`searchWF`: every
`subordinate-to` application exists, and every principal one has a
`units` map whose units all carry a `subordinates` entry) yields the
first principal unit owning the subordinate, searching the
`subordinate-to` applications in order and each principal application's
units in order, with a NoPrincipalFound-style exception when none owns
it; and whenever no principal unit owns the subordinate, the function
errors rather than returning a value.  Outside `searchWF` the returned
error can be a KeyError rather than the claimed first owning unit — see
`c4_counterexample`. -/
theorem c4_subordinate_to_principal (st : JujuStatus) (u app : Name)
    (arec : AppRec)
    (h1 : unit_to_application st u = some app)
    (h2 : st.applications.lookup app = some arec) :
    (arec.subordinate_to = none →
      subordinate_unit_to_principal_unit st u = .ok u) ∧
    (∀ papps, arec.subordinate_to = some papps →
      searchWF st papps = true →
      subordinate_unit_to_principal_unit st u =
        (match specPrincipalOwner st u papps with
         | some p => .ok p
         | none => .error .exception)) ∧
    (∀ papps, arec.subordinate_to = some papps →
      specPrincipalOwner st u papps = none →
      ∃ e, subordinate_unit_to_principal_unit st u = .error e) := by
  have hbase : subordinate_unit_to_principal_unit st u =
      (match arec.subordinate_to with
       | none => .ok u
       | some papps => searchPrincipals st u papps) := by
    simp only [subordinate_unit_to_principal_unit, h1, h2]
  refine ⟨fun hn => ?_, fun papps hs hwf => ?_, fun papps hs hnone => ?_⟩
  · rw [hbase, hn]
  · rw [hbase, hs]
    exact searchPrincipals_eq_spec hwf
  · rw [hbase, hs]
    exact searchPrincipals_none_errors hnone

/-- A status document with the principal application `prin` (its unit
`prin/0` owning subordinate `sub/0`) and the subordinate application
`sub`. -/
def subordinateDoc : JujuStatus :=
  { applications :=
      [(chars "prin",
        { charm := some (chars "c"),
          subordinate_to := none,
          units := some [(chars "prin/0",
            { machine := some (chars "0"),
              subordinates := some [chars "sub/0"] })] }),
       (chars "sub",
        { charm := some (chars "s"),
          subordinate_to := some [chars "prin"],
          units := none })],
    machines := [] }

/-- Concrete instance for `c4_subordinate_to_principal`: the subordinate
unit `sub/0` resolves to its owning principal unit `prin/0`. -/
theorem c4_witness :
    subordinate_unit_to_principal_unit subordinateDoc (chars "sub/0") =
      .ok (chars "prin/0") :=
  ((c4_subordinate_to_principal subordinateDoc (chars "sub/0") (chars "sub")
      ⟨some (chars "s"), some [chars "prin"], none⟩ rfl rfl).2.1
    [chars "prin"] rfl (by decide)).trans rfl

/-- A status document whose subordinate `sub/0` is owned by the principal
unit `prin/1`, while the earlier principal unit `prin/0` has no
`subordinates` entry. -/
def orphanKeyDoc : JujuStatus :=
  { applications :=
      [(chars "prin",
        { charm := some (chars "c"),
          subordinate_to := none,
          units := some
            [(chars "prin/0",
              { machine := some (chars "0"), subordinates := none }),
             (chars "prin/1",
              { machine := some (chars "1"),
                subordinates := some [chars "sub/0"] })] }),
       (chars "sub",
        { charm := some (chars "s"),
          subordinate_to := some [chars "prin"],
          units := none })],
    machines := [] }

/-- C4 fails on the code: on `orphanKeyDoc` the first principal unit whose
`subordinates` map contains `sub/0` is `prin/1` (as the spec-modelled
search confirms), but the code indexes the `subordinates` key of the
earlier unit `prin/0`, which is absent, and raises a KeyError (core.py
line 574) instead of returning `prin/1`. -/
theorem c4_counterexample :
    specPrincipalOwner orphanKeyDoc (chars "sub/0") [chars "prin"] =
      some (chars "prin/1") ∧
    subordinate_unit_to_principal_unit orphanKeyDoc (chars "sub/0") =
      .error .keyError ∧
    subordinate_unit_to_principal_unit orphanKeyDoc (chars "sub/0") ≠
      .ok (chars "prin/1") :=
  ⟨rfl, rfl, by decide⟩

end Jockey.Core
